import Mathlib

/-!
Shallow embedding of the contact-manager core from `src/main.py`:
field validators (`Name`, `Phone`, `Birthday`), `Record`, and
`AddressBook`, together with the date arithmetic used by
`get_upcoming_birthdays`.

Python exceptions are modelled by `Except`/`Option` results.  Following
the error taxonomy of the specification, a `ValueError` raised by a
validator (or by `date.replace` on an impossible date) is rendered as
`PyErr.invalidFormat`, while `ValueError("Phone not found")` from
`Record.edit_phone` and `NameError("Contact not found")` from
`AddressBook.delete` are rendered as `PyErr.notFound`.
-/

/-- Error kinds of the core, per the specification's taxonomy (§7). -/
inductive PyErr where
  | invalidFormat : PyErr
  | notFound : PyErr
deriving DecidableEq, Repr

/-- Python's `str.isspace` character class: a character is whitespace when
its code point is one of the ASCII whitespace characters 9–13 and 28–31,
the space 32, or one of the Unicode space characters 133 (NEL), 160
(NBSP), 0x1680, 0x2000–0x200A, 0x2028, 0x2029, 0x202F, 0x205F, 0x3000.
`str.strip()` removes exactly these characters from both ends. -/
def pyIsSpace (c : Char) : Bool :=
  let n := c.toNat
  (9 ≤ n && n ≤ 13) || (28 ≤ n && n ≤ 32) || n == 133 || n == 160 ||
  n == 0x1680 || (0x2000 ≤ n && n ≤ 0x200a) || n == 0x2028 ||
  n == 0x2029 || n == 0x202f || n == 0x205f || n == 0x3000

/-- `str.strip()` on a list of characters: drop `pyIsSpace` characters
from the front, then from the back. -/
def pyStripList (l : List Char) : List Char :=
  ((l.dropWhile pyIsSpace).reverse.dropWhile pyIsSpace).reverse

/-- Python's `s.strip()` for a string. -/
def pyStrip (s : String) : String :=
  String.mk (pyStripList s.data)

/-- First code points of the aligned blocks of ten consecutive Unicode
decimal digits (category `Nd`, the characters of `str.isdecimal`, which
regex `\d` matches and `int()` reads): the character at `start + v`
has decimal value `v`.  This is the complete table of Unicode 14.0.0 as
compiled into CPython 3.11; every `Nd` run is a union of such blocks. -/
def ndStarts : List Nat :=
  [0x30, 0x660, 0x6f0, 0x7c0, 0x966, 0x9e6, 0xa66, 0xae6, 0xb66, 0xbe6,
   0xc66, 0xce6, 0xd66, 0xde6, 0xe50, 0xed0, 0xf20, 0x1040, 0x1090,
   0x17e0, 0x1810, 0x1946, 0x19d0, 0x1a80, 0x1a90, 0x1b50, 0x1bb0,
   0x1c40, 0x1c50, 0xa620, 0xa8d0, 0xa900, 0xa9d0, 0xa9f0, 0xaa50,
   0xabf0, 0xff10, 0x104a0, 0x10d30, 0x11066, 0x110f0, 0x11136,
   0x111d0, 0x112f0, 0x11450, 0x114d0, 0x11650, 0x116c0, 0x11730,
   0x118e0, 0x11950, 0x11c50, 0x11d50, 0x11da0, 0x16a60, 0x16ac0,
   0x16b50, 0x1d7ce, 0x1d7d8, 0x1d7e2, 0x1d7ec, 0x1d7f6, 0x1e140,
   0x1e2f0, 0x1e950, 0x1fbf0]

/-- A Unicode decimal digit (category `Nd`): what `str.isdecimal`
accepts, regex `\d` matches and `int()` reads. -/
def isNdDigit (c : Char) : Bool :=
  ndStarts.any fun s => s ≤ c.toNat && c.toNat < s + 10

/-- The decimal value of a Unicode decimal digit: its offset inside its
block (0 for a character that is no decimal digit, a case `int()` never
reaches on a regex-matched digit string). -/
def ndVal (c : Char) : Nat :=
  match ndStarts.find? fun s => s ≤ c.toNat && c.toNat < s + 10 with
  | some s => c.toNat - s
  | none => 0

/-- The code-point ranges accepted by `str.isdigit` beyond the decimal
digits: the characters with Unicode `Numeric_Type = Digit`
(compatibility superscripts and subscripts, circled and parenthesized
digits, and the like), again the complete table of Unicode 14.0.0 as
compiled into CPython 3.11. -/
def digitExtraRanges : List (Nat × Nat) :=
  [(0xb2, 0xb3), (0xb9, 0xb9), (0x1369, 0x1371), (0x19da, 0x19da),
   (0x2070, 0x2070), (0x2074, 0x2079), (0x2080, 0x2089),
   (0x2460, 0x2468), (0x2474, 0x247c), (0x2488, 0x2490),
   (0x24ea, 0x24ea), (0x24f5, 0x24fd), (0x24ff, 0x24ff),
   (0x2776, 0x277e), (0x2780, 0x2788), (0x278a, 0x2792),
   (0x10a40, 0x10a43), (0x10e60, 0x10e68), (0x11052, 0x1105a),
   (0x1f100, 0x1f10a)]

/-- Python's `str.isdigit` character class: every character whose
Unicode `Numeric_Type` is `Decimal` or `Digit` — the decimal-digit
blocks of all scripts together with the `digitExtraRanges`. -/
def pyIsDigitChar (c : Char) : Bool :=
  isNdDigit c || digitExtraRanges.any fun p => p.1 ≤ c.toNat && c.toNat ≤ p.2

/-- Python's `s.isdigit()`: false on the empty string, otherwise true
exactly when every character is a digit. -/
def pyStrIsDigit (s : String) : Bool :=
  !s.data.isEmpty && s.data.all pyIsDigitChar

/-- `Name` field: `is_valid` requires `self.value.strip()` to be truthy
(non-empty after stripping), but the constructor stores the ORIGINAL
string `name`, not the stripped one (`src/main.py:45-52`). -/
structure Name where
  value : String
deriving DecidableEq, Repr

/-- `Name.__init__`: raises `ValueError` when the stripped value is
empty, otherwise stores the raw input unchanged. -/
def Name.make (s : String) : Except PyErr Name :=
  if pyStrip s = "" then .error .invalidFormat else .ok ⟨s⟩

/-- `Phone` field: a stored phone string (`src/main.py:54-61`). -/
structure Phone where
  value : String
deriving DecidableEq, Repr

/-- `Phone.is_valid`: `len(self.value) == 10 and self.value.isdigit()`. -/
def phoneValid (s : String) : Bool :=
  s.length == 10 && pyStrIsDigit s

/-- `Phone.__init__`: raises `ValueError` unless `is_valid`. -/
def Phone.make (s : String) : Except PyErr Phone :=
  if phoneValid s then .ok ⟨s⟩ else .error .invalidFormat

/-- `Field.__str__` for a phone: `str(self.value)` is the string itself. -/
def Phone.render (p : Phone) : String := p.value

/-- A naive calendar date, as held by `datetime.date`. -/
structure Date where
  year : Nat
  month : Nat
  day : Nat
deriving DecidableEq, Repr

/-- Proleptic-Gregorian leap-year test used by `datetime`. -/
def isLeap (y : Nat) : Bool :=
  y % 4 == 0 && (y % 100 != 0 || y % 400 == 0)

/-- Number of days of month `m` in year `y`. -/
def daysInMonth (y m : Nat) : Nat :=
  if m = 2 then (if isLeap y then 29 else 28)
  else if m = 4 ∨ m = 6 ∨ m = 9 ∨ m = 11 then 30
  else 31

/-- Validity of a `datetime.date(y, m, d)` construction: `datetime`
accepts years `MINYEAR = 1` to `MAXYEAR = 9999`. -/
def validDate (y m d : Nat) : Bool :=
  1 ≤ y && y ≤ 9999 && 1 ≤ m && m ≤ 12 && 1 ≤ d && d ≤ daysInMonth y m

/-- Days in all full years before year `y` (proleptic Gregorian). -/
def daysBeforeYear (y : Nat) : Nat :=
  365 * (y - 1) + (y - 1) / 4 - (y - 1) / 100 + (y - 1) / 400

/-- Cumulative day counts before month `m` in a non-leap year. -/
def cumDays (m : Nat) : Nat :=
  match m with
  | 1 => 0 | 2 => 31 | 3 => 59 | 4 => 90 | 5 => 120 | 6 => 151
  | 7 => 181 | 8 => 212 | 9 => 243 | 10 => 273 | 11 => 304 | 12 => 334
  | _ => 0

/-- Days in year `y` strictly before month `m`. -/
def daysBeforeMonth (y m : Nat) : Nat :=
  cumDays m + (if 2 < m ∧ isLeap y then 1 else 0)

/-- `date.toordinal()`: day number counted from 0001-01-01 = 1. -/
def Date.toOrdinal (d : Date) : Nat :=
  daysBeforeYear d.year + daysBeforeMonth d.year d.month + d.day

/-- `(a - b).days` for two dates: difference of ordinals. -/
def daysBetween (a b : Date) : Int :=
  (a.toOrdinal : Int) - (b.toOrdinal : Int)

/-- `date.weekday()`: Monday is 0; ordinal 1 (0001-01-01) is a Monday. -/
def Date.weekday (d : Date) : Nat :=
  (d.toOrdinal + 6) % 7

/-- English weekday names as produced by `%A` under the C locale,
indexed by `date.weekday()`. -/
def dayName (w : Nat) : String :=
  match w with
  | 0 => "Monday" | 1 => "Tuesday" | 2 => "Wednesday" | 3 => "Thursday"
  | 4 => "Friday" | 5 => "Saturday" | _ => "Sunday"

/-- Decimal digit character for `n % 10`. -/
def dchar (n : Nat) : Char :=
  Char.ofNat (48 + n % 10)

/-- Decimal digit characters of `n`, most significant first; the fuel
argument (structural, always at least the digit count when started at
`n`) only bounds the recursion depth. -/
def natDigitsAux : Nat → Nat → List Char
  | 0, n => [dchar n]
  | fuel + 1, n =>
    if n < 10 then [dchar n]
    else natDigitsAux fuel (n / 10) ++ [dchar n]

/-- Decimal digit characters of `n`, most significant first. -/
def natDigits (n : Nat) : List Char :=
  natDigitsAux n n

/-- Unpadded decimal rendering of `n`, as `%Y` produces under glibc
(no zero padding for years below 1000). -/
def natStr (n : Nat) : String :=
  String.mk (natDigits n)

/-- Two-digit zero-padded rendering, as `%d` and `%m` produce. -/
def pad2 (n : Nat) : String :=
  String.mk [dchar (n / 10), dchar n]

/-- `date.strftime("%d.%m.%Y")`: zero-padded day and month, year as an
unpadded decimal number (glibc `%Y`). -/
def strftimeDMY (d : Date) : String :=
  pad2 d.day ++ "." ++ pad2 d.month ++ "." ++ natStr d.year

/-- `date.strftime("%A, %d.%m.%Y")` under the C locale. -/
def strftimeADMY (d : Date) : String :=
  dayName d.weekday ++ ", " ++ strftimeDMY d

/-- Split a character list on `.` separators (every occurrence). -/
def splitOnDot (l : List Char) : List (List Char) :=
  match l with
  | [] => [[]]
  | c :: rest =>
    if c = '.' then [] :: splitOnDot rest
    else
      match splitOnDot rest with
      | g :: gs => (c :: g) :: gs
      | [] => [[c]]

/-- Join chunks back with dots: the left inverse of `splitOnDot`. -/
def joinDots : List (List Char) → List Char
  | [] => []
  | [g] => g
  | g :: gs => g ++ '.' :: joinDots gs

/-- The zero-padded canonical `DD.MM.YYYY` string of a date with a
four-digit year: two-digit day, two-digit month, four-digit year. -/
def canonDMY (y m d : Nat) : String :=
  String.mk ([dchar (d / 10), dchar d] ++ '.' ::
    ([dchar (m / 10), dchar m] ++ '.' ::
      [dchar (y / 1000), dchar (y / 100), dchar (y / 10), dchar y]))

/-- The day field of `_strptime`'s `%d`: regex `3[01]|[12]\d|0[1-9]|[1-9]`,
compiled without `re.ASCII`, so the `\d` matches any Unicode decimal
digit while the literals and the `[...]` classes are ASCII; the value is
`int()` of the matched text, read digit by digit.  The chunk (what
stands before the next literal dot) must be consumed entirely: when
only a shorter alternative matches, the leftover character fails the
dot that follows and the whole pattern. -/
def dayFieldVal (l : List Char) : Option Nat :=
  match l with
  | [c] =>
    if 49 ≤ c.toNat ∧ c.toNat ≤ 57 then some (ndVal c) else none
  | [c1, c2] =>
    if (c1 = '3' ∧ (c2 = '0' ∨ c2 = '1')) ∨
        ((c1 = '1' ∨ c1 = '2') ∧ isNdDigit c2 = true) ∨
        (c1 = '0' ∧ 49 ≤ c2.toNat ∧ c2.toNat ≤ 57) then
      some (ndVal c1 * 10 + ndVal c2)
    else none
  | _ => none

/-- The month field of `_strptime`'s `%m`: regex `1[0-2]|0[1-9]|[1-9]`,
all of it ASCII literals and classes (no `\d`). -/
def monthFieldVal (l : List Char) : Option Nat :=
  match l with
  | [c] =>
    if 49 ≤ c.toNat ∧ c.toNat ≤ 57 then some (ndVal c) else none
  | [c1, c2] =>
    if (c1 = '1' ∧ (c2 = '0' ∨ c2 = '1' ∨ c2 = '2')) ∨
        (c1 = '0' ∧ 49 ≤ c2.toNat ∧ c2.toNat ≤ 57) then
      some (ndVal c1 * 10 + ndVal c2)
    else none
  | _ => none

/-- The year field of `_strptime`'s `%Y`: regex `\d\d\d\d` — exactly
four Unicode decimal digits, whose `int()` value is read positionally. -/
def yearFieldVal (l : List Char) : Option Nat :=
  match l with
  | [a, b, c, d] =>
    if isNdDigit a ∧ isNdDigit b ∧ isNdDigit c ∧ isNdDigit d then
      some (((ndVal a * 10 + ndVal b) * 10 + ndVal c) * 10 + ndVal d)
    else none
  | _ => none

/-- `datetime.strptime(s, "%d.%m.%Y").date()`: the compiled pattern is
`(day)\.(month)\.(year)` matched against the whole string (`_strptime`
raises `ValueError` both when the regex fails and when characters remain
unconverted), after which `datetime.date(year, month, day)` is built and
raises `ValueError` for an impossible calendar date (this also rejects
year 0000, below `MINYEAR`). -/
def pyStrptimeDMY (s : String) : Option Date :=
  match splitOnDot s.data with
  | [df, mf, yf] =>
    match dayFieldVal df, monthFieldVal mf, yearFieldVal yf with
    | some d, some m, some y =>
      if validDate y m d then some ⟨y, m, d⟩ else none
    | _, _, _ => none
  | _ => none

/-- `Birthday` field: after a successful parse, `self.value` holds the
`date` object (`src/main.py:63-73`). -/
structure Birthday where
  value : Date
deriving DecidableEq, Repr

/-- `Birthday.__init__`: raises `ValueError("Invalid date format...")`
when `strptime` fails, otherwise stores the parsed date. -/
def Birthday.make (s : String) : Except PyErr Birthday :=
  match pyStrptimeDMY s with
  | some d => .ok ⟨d⟩
  | none => .error .invalidFormat

/-- One contact: a `Name`, an ordered list of `Phone`s (duplicates
allowed), and an optional `Birthday` (`src/main.py:75-110`). -/
structure Record where
  name : Name
  phones : List Phone
  birthday : Option Birthday
deriving DecidableEq, Repr

/-- `Record.__init__(name)`: validates the name, starts with no phones
and no birthday. -/
def Record.make (s : String) : Except PyErr Record :=
  (Name.make s).map fun n => ⟨n, [], none⟩

/-- `Record.add_phone`: `Phone(phone)` is constructed first (raising
`ValueError` on a bad format, in which case nothing is appended), then
appended. -/
def Record.add_phone (r : Record) (s : String) : Except PyErr Record :=
  (Phone.make s).map fun p => { r with phones := r.phones ++ [p] }

/-- `Record.remove_phone`: keeps every phone whose value differs from
`phone`; removing an absent phone is a no-op, not an error. -/
def Record.remove_phone (r : Record) (s : String) : Record :=
  { r with phones := r.phones.filter fun p => p.value ≠ s }

/-- Loop body of `Record.edit_phone`: scan for the first phone equal to
`old`; at the first hit construct `Phone(new_phone)` and overwrite that
slot, or raise without touching the list when the new number is
malformed; reaching the end raises `ValueError("Phone not found")`.
The result pairs the final phone list (the in-place state when the call
returns or raises) with the raised error, if any. -/
def editPhoneGo (ps : List Phone) (old new : String) :
    List Phone × Option PyErr :=
  match ps with
  | [] => ([], some .notFound)
  | p :: rest =>
    if p.value = old then
      match Phone.make new with
      | .ok np => (np :: rest, none)
      | .error e => (p :: rest, some e)
    else
      let (rest2, err) := editPhoneGo rest old new
      (p :: rest2, err)

/-- `Record.edit_phone(old_phone, new_phone)`: the record after the call
together with the raised error, if any (`src/main.py:87-92`). -/
def Record.edit_phone (r : Record) (old new : String) :
    Record × Option PyErr :=
  let (ps, err) := editPhoneGo r.phones old new
  ({ r with phones := ps }, err)

/-- `Record.find_phone`: first phone whose value equals `phone`, or
`None`; no mutation. -/
def Record.find_phone (r : Record) (s : String) : Option Phone :=
  r.phones.find? fun p => p.value = s

/-- `Record.add_birthday(bdate)`: `Birthday(bdate)` is constructed FIRST
(so a malformed date raises `ValueError` even when a birthday is already
set); only then is `self.birthday` checked: when unset the parsed value
is stored and "Birthday added." returned, otherwise the record is left
unchanged and "Already have" returned (`src/main.py:100-106`). -/
def Record.add_birthday (r : Record) (s : String) :
    Except PyErr (Record × String) :=
  (Birthday.make s).map fun b =>
    match r.birthday with
    | none => ({ r with birthday := some b }, "Birthday added.")
    | some _ => (r, "Already have")

/-- `Record.__str__` (`src/main.py:108-110`). -/
def Record.render (r : Record) : String :=
  let formatted :=
    match r.birthday with
    | some b => strftimeDMY b.value
    | none => "N/A"
  "Contact name: " ++ r.name.value ++ ", phones: " ++
    String.intercalate "; " (r.phones.map Phone.value) ++
    ", birthday: " ++ formatted

/-- `AddressBook`: a `UserDict` keyed by the contact name.  A Python
`dict` is modelled as an association list in insertion order; updating
an existing key keeps its position, exactly as `dict` assignment does
(`src/main.py:112-141`). -/
structure AddressBook where
  data : List (String × Record)
deriving DecidableEq, Repr

/-- `self.data[k] = v` for a `dict`: overwrite the (unique) existing
entry in place, or append a new one. -/
def upsert (l : List (String × Record)) (k : String) (v : Record) :
    List (String × Record) :=
  match l with
  | [] => [(k, v)]
  | (k2, v2) :: rest =>
    if k2 = k then (k, v) :: rest else (k2, v2) :: upsert rest k v

/-- `AddressBook.add_record`: `self.data[record.name.value] = record`. -/
def AddressBook.add_record (book : AddressBook) (r : Record) :
    AddressBook :=
  ⟨upsert book.data r.name.value r⟩

/-- `AddressBook.find`: `self.data.get(name)`. -/
def AddressBook.find (book : AddressBook) (name : String) :
    Option Record :=
  (book.data.find? fun kv => kv.1 = name).map Prod.snd

/-- `self.data.pop(name, None)` on a `dict`: a `dict` holds at most one
entry per key, so popping the key removes every pair with that key. -/
def removeKey (l : List (String × Record)) (name : String) :
    List (String × Record) :=
  l.filter fun kv => kv.1 ≠ name

/-- `AddressBook.delete(name)`: `pop` returns the stored `Record` when
the key is present — a plain object, always truthy — so
`NameError("Contact not found")` is raised exactly when the key was
absent (`src/main.py:119-121`). -/
def AddressBook.delete (book : AddressBook) (name : String) :
    Except PyErr AddressBook :=
  match book.find name with
  | none => .error .notFound
  | some _ => .ok ⟨removeKey book.data name⟩

/-- `date.replace(year=y)`: keeps month and day, raising `ValueError`
when the combination is not a real date (e.g. Feb 29 into a non-leap
year). -/
def replaceYear (d : Date) (y : Nat) : Option Date :=
  if validDate y d.month d.day then some ⟨y, d.month, d.day⟩ else none

/-- `AddressBook.get_upcoming_birthdays` (`src/main.py:123-135`): the
code reads `tdate = datetime.today().date()` from the system clock; the
clock value is the parameter `tdate` here.  For each record with a set
birthday the year is replaced by `tdate.year` (a `ValueError` from
`replace` propagates out of the whole call), and the record contributes
one `{'name', 'birthday'}` entry when `0 <= days_between <= 7`, with the
date rendered by `strftime("%A, %d.%m.%Y")`. -/
def getUpcomingGo (tdate : Date) (l : List (String × Record)) :
    Except PyErr (List (String × String)) :=
  match l with
  | [] => .ok []
  | (_, r) :: rest =>
    match r.birthday with
    | none => getUpcomingGo tdate rest
    | some b =>
      match replaceYear b.value tdate.year with
      | none => .error .invalidFormat
      | some bty =>
        (getUpcomingGo tdate rest).map fun out =>
          if 0 ≤ daysBetween bty tdate ∧ daysBetween bty tdate ≤ 7 then
            (r.name.value, strftimeADMY bty) :: out
          else out

/-- `AddressBook.get_upcoming_birthdays`, with the clock made explicit. -/
def AddressBook.get_upcoming_birthdays (book : AddressBook)
    (tdate : Date) : Except PyErr (List (String × String)) :=
  getUpcomingGo tdate book.data

/-- The mutating and observing operations exposed on one `Record`
(`findPhone` and rendering observe without mutating; a failed validation
leaves the record as it was, since the exception is raised before any
assignment). -/
inductive RecOp where
  | addPhoneOp : String → RecOp
  | removePhoneOp : String → RecOp
  | editPhoneOp : String → String → RecOp
  | addBirthdayOp : String → RecOp
  | findPhoneOp : String → RecOp
  | renderOp : RecOp

/-- The record state after one operation: the post-state of the Python
call, whether it returned normally or raised. -/
def applyRecOp (r : Record) (op : RecOp) : Record :=
  match op with
  | .addPhoneOp s =>
    match r.add_phone s with
    | .ok r2 => r2
    | .error _ => r
  | .removePhoneOp s => r.remove_phone s
  | .editPhoneOp old new => (r.edit_phone old new).1
  | .addBirthdayOp s =>
    match r.add_birthday s with
    | .ok (r2, _) => r2
    | .error _ => r
  | .findPhoneOp _ => r
  | .renderOp => r

/-- The operations that change an `AddressBook`'s key set. -/
inductive BookOp where
  | addRecordOp : Record → BookOp
  | deleteOp : String → BookOp

/-- The book state after one operation (a failing `delete` raises before
mutating anything). -/
def applyBookOp (book : AddressBook) (op : BookOp) : AddressBook :=
  match op with
  | .addRecordOp r => book.add_record r
  | .deleteOp name =>
    match book.delete name with
    | .ok book2 => book2
    | .error _ => book

/-- The `{'name', 'birthday'}` entry one stored record contributes to
`get_upcoming_birthdays` run at clock value `tdate`, if any. -/
def upcomingEntry (tdate : Date) (kr : String × Record) :
    Option (String × String) :=
  match kr.2.birthday with
  | none => none
  | some b =>
    match replaceYear b.value tdate.year with
    | none => none
    | some bty =>
      if 0 ≤ daysBetween bty tdate ∧ daysBetween bty tdate ≤ 7 then
        some (kr.2.name.value, strftimeADMY bty)
      else none

/-! ### Helper lemmas -/

theorem dchar_ne_dot (k : Nat) : ¬ dchar k = '.' := by
  have h : k % 10 < 10 := Nat.mod_lt _ (by omega)
  unfold dchar
  set j := k % 10 with hj
  interval_cases j <;> decide

theorem isDigit_isNdDigit (c : Char) (h : c.isDigit = true) :
    isNdDigit c = true := by
  simp [Char.isDigit] at h
  have h2 : 48 ≤ c.toNat ∧ c.toNat ≤ 57 := ⟨h.1, h.2⟩
  simp only [isNdDigit, List.any_eq_true]
  refine ⟨48, by decide, ?_⟩
  simp only [Bool.and_eq_true, decide_eq_true_eq]
  omega

theorem isDigit_pyIsDigitChar (c : Char) (h : c.isDigit = true) :
    pyIsDigitChar c = true := by
  simp [pyIsDigitChar, isDigit_isNdDigit c h]

/-! ### C4: Phone validation -/

/-- C4 counterexample: a string of ten Arabic-Indic digits (U+0660) is
accepted by `Phone` construction — Python's `isdigit` is not restricted
to ASCII digits — although none of its characters is an ASCII decimal
digit, contradicting the claim that construction succeeds only for
strings of ASCII digits. -/
theorem phone_nonascii_digit_cex :
    Phone.make (String.mk (List.replicate 10 (Char.ofNat 0x660))) =
      .ok ⟨String.mk (List.replicate 10 (Char.ofNat 0x660))⟩ ∧
    (String.mk (List.replicate 10 (Char.ofNat 0x660))).data.all
      Char.isDigit = false := by
  constructor
  · rfl
  · decide

/-- C4 (amended): `Phone` construction succeeds exactly on strings of
length 10 all of whose characters satisfy Python's `str.isdigit` (which
also accepts non-ASCII Unicode digits); any other string fails with
`InvalidFormat`; and every string of exactly 10 ASCII digits is accepted
and renders back to itself. -/
theorem phone_make_spec (s : String) :
    (Phone.make s = .ok ⟨s⟩ ↔
      s.length = 10 ∧ pyStrIsDigit s = true) ∧
    (Phone.make s = .error .invalidFormat ↔
      ¬(s.length = 10 ∧ pyStrIsDigit s = true)) ∧
    (s.length = 10 → s.data.all Char.isDigit = true →
      Phone.make s = .ok ⟨s⟩ ∧ Phone.render ⟨s⟩ = s) := by
  refine ⟨?_, ?_, ?_⟩
  · by_cases h : phoneValid s = true
    · simp [Phone.make, h]
      simpa [phoneValid] using h
    · simp [Phone.make, h]
      simpa [phoneValid] using h
  · by_cases h : phoneValid s = true
    · simp [Phone.make, h]
      simpa [phoneValid] using h
    · simp [Phone.make, h]
      simpa [phoneValid] using h
  · intro hlen hall
    have hne : s.data.isEmpty = false := by
      have : s.data.length = 10 := hlen
      cases hd : s.data with
      | nil => rw [hd] at this; simp at this
      | cons c cs => simp [hd]
    have hpy : s.data.all pyIsDigitChar = true := by
      rw [List.all_eq_true] at hall ⊢
      exact fun c hc => isDigit_pyIsDigitChar c (hall c hc)
    have hv : phoneValid s = true := by
      simp [phoneValid, pyStrIsDigit, hlen, hne, hpy]
    exact ⟨by simp [Phone.make, hv], rfl⟩

/-- C4 witness: the all-ASCII phone string "1234567890" is accepted and
renders back to itself. -/
theorem phone_make_spec_witness :
    Phone.make "1234567890" = .ok ⟨"1234567890"⟩ ∧
    Phone.render ⟨"1234567890"⟩ = "1234567890" :=
  (phone_make_spec "1234567890").2.2 (by decide) (by decide)

/-! ### C6: Name validation -/

/-- C6 counterexample: `Name(" Bob ")` is accepted (its stripped value
is non-empty) but stores the ORIGINAL string `" Bob "`, with its
surrounding whitespace — the constructor never strips what it stores —
contradicting the claim that a constructed Name carries no surrounding
whitespace. -/
theorem name_unstripped_cex :
    Name.make " Bob " = .ok ⟨" Bob "⟩ ∧ pyStrip " Bob " ≠ " Bob " := by
  constructor
  · rfl
  · decide

/-- C6 (amended): `Name` construction fails with `InvalidFormat` exactly
when the stripped input is empty (in particular on every all-whitespace
string), and a successful construction stores the ORIGINAL input — a
string that is neither empty nor all-whitespace but may still carry its
surrounding whitespace. -/
theorem name_make_spec (s : String) :
    (Name.make s = .error .invalidFormat ↔ pyStrip s = "") ∧
    (∀ n, Name.make s = .ok n → n.value = s ∧ pyStrip n.value ≠ "") ∧
    (s.data.all pyIsSpace = true → Name.make s = .error .invalidFormat) := by
  refine ⟨?_, ?_, ?_⟩
  · by_cases h : pyStrip s = ""
    · simp [Name.make, h]
    · simp [Name.make, h]
  · intro n hn
    by_cases h : pyStrip s = ""
    · simp [Name.make, h] at hn
    · simp [Name.make, h] at hn
      subst hn
      exact ⟨rfl, h⟩
  · intro hall
    have h1 : s.data.dropWhile pyIsSpace = [] :=
      List.dropWhile_eq_nil_iff.mpr (by
        rw [List.all_eq_true] at hall
        exact fun c hc => hall c hc)
    have h2 : pyStripList s.data = [] := by
      simp [pyStripList, h1]
    have h3 : pyStrip s = "" := by
      apply String.ext
      simpa [pyStrip] using h2
    simp [Name.make, h3]

/-- C6 witness: a whitespace-only string is rejected, and a successful
construction keeps the original input. -/
theorem name_make_spec_witness :
    Name.make "   " = .error .invalidFormat ∧
    (∀ n, Name.make "Bob" = .ok n → n.value = "Bob") :=
  ⟨(name_make_spec "   ").2.2 (by decide),
   fun n hn => ((name_make_spec "Bob").2.1 n hn).1⟩

/-! ### C2: add_birthday on an already-set record -/

/-- C2 counterexample: on a record whose birthday is already set,
`add_birthday("nonsense")` raises `ValueError` instead of returning the
"already set" status — `Birthday(bdate)` is constructed before the
already-set check — contradicting the claim that the call never errors
for any input string once a birthday is set. -/
theorem add_birthday_validate_first_cex :
    Record.add_birthday ⟨⟨"A"⟩, [], some ⟨⟨1990, 3, 15⟩⟩⟩ "nonsense" =
      .error .invalidFormat := by
  rfl

/-- C2 (amended): once a birthday is set, `add_birthday` with any raw
string that parses as a valid `DD.MM.YYYY` date returns the
"Already have" status and leaves the record (hence the stored birthday)
unchanged; after any successful `add_birthday`, repeating the call with
the same raw string again leaves the record unchanged and reports
"Already have"; but a raw string that does not parse fails with
`InvalidFormat` even when a birthday is already set, because validation
precedes the already-set check. -/
theorem add_birthday_no_overwrite (r : Record) (raw : String) :
    (∀ b d, r.birthday = some b → pyStrptimeDMY raw = some d →
      r.add_birthday raw = .ok (r, "Already have")) ∧
    (∀ r1 s1, r.add_birthday raw = .ok (r1, s1) →
      r1.add_birthday raw = .ok (r1, "Already have")) ∧
    (pyStrptimeDMY raw = none →
      r.add_birthday raw = .error .invalidFormat) := by
  refine ⟨?_, ?_, ?_⟩
  · intro b d hb hd
    simp [Record.add_birthday, Birthday.make, hd, hb, Except.map]
  · intro r1 s1 h
    cases hd : pyStrptimeDMY raw with
    | none => simp [Record.add_birthday, Birthday.make, hd, Except.map] at h
    | some d =>
      cases hb : r.birthday with
      | none =>
        simp [Record.add_birthday, Birthday.make, hd, hb, Except.map] at h
        obtain ⟨rfl, rfl⟩ := h
        simp [Record.add_birthday, Birthday.make, hd, Except.map]
      | some b =>
        simp [Record.add_birthday, Birthday.make, hd, hb, Except.map] at h
        obtain ⟨rfl, rfl⟩ := h
        simp [Record.add_birthday, Birthday.make, hd, hb, Except.map]
  · intro hd
    simp [Record.add_birthday, Birthday.make, hd, Except.map]

/-- C2 witness: with birthday 15.03.1990 already set, adding the valid
date string "01.01.2000" reports "Already have" and changes nothing,
and a repeated add after a successful first add does the same. -/
theorem add_birthday_no_overwrite_witness :
    Record.add_birthday ⟨⟨"A"⟩, [], some ⟨⟨1990, 3, 15⟩⟩⟩ "01.01.2000" =
      .ok (⟨⟨"A"⟩, [], some ⟨⟨1990, 3, 15⟩⟩⟩, "Already have") ∧
    Record.add_birthday ⟨⟨"A"⟩, [], some ⟨⟨1990, 3, 15⟩⟩⟩ "15.03.1990" =
      .ok (⟨⟨"A"⟩, [], some ⟨⟨1990, 3, 15⟩⟩⟩, "Already have") :=
  ⟨(add_birthday_no_overwrite ⟨⟨"A"⟩, [], some ⟨⟨1990, 3, 15⟩⟩⟩
      "01.01.2000").1 ⟨⟨1990, 3, 15⟩⟩ ⟨2000, 1, 1⟩ rfl (by decide),
   (add_birthday_no_overwrite ⟨⟨"A"⟩, [], none⟩ "15.03.1990").2.1
      ⟨⟨"A"⟩, [], some ⟨⟨1990, 3, 15⟩⟩⟩ "Birthday added." rfl⟩

/-! ### C3 and C10: edit_phone -/

/-- When no phone matches `old`, the scan reaches the end: the list is
untouched and `ValueError("Phone not found")` is raised. -/
theorem editPhoneGo_not_found (ps : List Phone) (old new : String)
    (h : ∀ p ∈ ps, p.value ≠ old) :
    editPhoneGo ps old new = (ps, some .notFound) := by
  induction ps with
  | nil => rfl
  | cons p rest ih =>
    have hp : p.value ≠ old := h p (by simp)
    simp [editPhoneGo, hp, ih fun q hq => h q (by simp [hq])]

/-- When some phone matches `old` but `new` is malformed, the raised
`ValueError` from `Phone(new_phone)` occurs before the assignment, so
the list is untouched. -/
theorem editPhoneGo_invalid (ps : List Phone) (old new : String)
    (hmem : ∃ p ∈ ps, p.value = old) (hbad : phoneValid new = false) :
    editPhoneGo ps old new = (ps, some .invalidFormat) := by
  induction ps with
  | nil => simp at hmem
  | cons p rest ih =>
    by_cases hp : p.value = old
    · simp [editPhoneGo, hp, Phone.make, hbad]
    · obtain ⟨q, hq, hqv⟩ := hmem
      rcases List.mem_cons.mp hq with rfl | hq2
      · exact absurd hqv hp
      · simp [editPhoneGo, hp, ih ⟨q, hq2, hqv⟩]

/-- When the first match sits after prefix `l1` and `new` validates,
exactly that slot is overwritten. -/
theorem editPhoneGo_replace (l1 : List Phone) (p : Phone)
    (l2 : List Phone) (old new : String) (np : Phone)
    (h1 : ∀ q ∈ l1, q.value ≠ old) (hp : p.value = old)
    (hnp : Phone.make new = .ok np) :
    editPhoneGo (l1 ++ p :: l2) old new = (l1 ++ np :: l2, none) := by
  induction l1 with
  | nil => simp [editPhoneGo, hp, hnp]
  | cons q rest ih =>
    have hq : q.value ≠ old := h1 q (by simp)
    simp [editPhoneGo, hq, ih fun x hx => h1 x (by simp [hx])]

/-- C3: `edit_phone` raises `NotFound` (list untouched) when no phone
equals `oldRaw`; with a match present it raises `InvalidFormat` when
`newRaw` is malformed, and otherwise replaces exactly the first matching
entry in place; on a record with phones ["1234567890"], editing to
"0987654321" succeeds, after which `find_phone` reports the old number
absent and the new one present. -/
theorem edit_phone_spec :
    (∀ (r : Record) (old new : String),
      (∀ p ∈ r.phones, p.value ≠ old) →
      r.edit_phone old new = (r, some .notFound)) ∧
    (∀ (r : Record) (old new : String),
      (∃ p ∈ r.phones, p.value = old) → phoneValid new = false →
      (r.edit_phone old new).2 = some .invalidFormat) ∧
    (∀ (r : Record) (old new : String) (np : Phone)
      (l1 : List Phone) (p : Phone) (l2 : List Phone),
      r.phones = l1 ++ p :: l2 → (∀ q ∈ l1, q.value ≠ old) →
      p.value = old → Phone.make new = .ok np →
      r.edit_phone old new = ({ r with phones := l1 ++ np :: l2 }, none)) ∧
    (Record.edit_phone ⟨⟨"A"⟩, [⟨"1234567890"⟩], none⟩ "1234567890"
        "0987654321" = (⟨⟨"A"⟩, [⟨"0987654321"⟩], none⟩, none) ∧
      Record.find_phone ⟨⟨"A"⟩, [⟨"0987654321"⟩], none⟩ "1234567890" =
        none ∧
      Record.find_phone ⟨⟨"A"⟩, [⟨"0987654321"⟩], none⟩ "0987654321" =
        some ⟨"0987654321"⟩) := by
  refine ⟨?_, ?_, ?_, by rfl, by rfl, by rfl⟩
  · intro r old new h
    simp [Record.edit_phone, editPhoneGo_not_found r.phones old new h]
  · intro r old new hmem hbad
    simp [Record.edit_phone, editPhoneGo_invalid r.phones old new hmem hbad]
  · intro r old new np l1 p l2 hps h1 hp hnp
    simp [Record.edit_phone, hps, editPhoneGo_replace l1 p l2 old new np h1 hp hnp]

/-- C3 witness: a record holding only "1111111111" reports `NotFound`
when asked to edit the absent "2222222222", and the concrete
replace-then-find scenario of the claim behaves as stated. -/
theorem edit_phone_spec_witness :
    Record.edit_phone ⟨⟨"B"⟩, [⟨"1111111111"⟩], none⟩ "2222222222"
      "0987654321" = (⟨⟨"B"⟩, [⟨"1111111111"⟩], none⟩, some .notFound) ∧
    Record.edit_phone ⟨⟨"A"⟩, [⟨"1234567890"⟩], none⟩ "1234567890"
      "0987654321" = (⟨⟨"A"⟩, [⟨"0987654321"⟩], none⟩, none) :=
  ⟨edit_phone_spec.1 ⟨⟨"B"⟩, [⟨"1111111111"⟩], none⟩ "2222222222"
      "0987654321" (by decide),
   edit_phone_spec.2.2.1 ⟨⟨"A"⟩, [⟨"1234567890"⟩], none⟩ "1234567890"
      "0987654321" ⟨"0987654321"⟩ [] ⟨"1234567890"⟩ [] rfl
      (by simp) rfl (by rfl)⟩

/-- C10: when a phone equal to `oldRaw` is present but `newRaw` is
malformed, `edit_phone` raises `InvalidFormat` and the record is left
exactly as it was before the call — `Phone(new_phone)` is constructed
before the slot assignment, so the failed edit mutates nothing. -/
theorem edit_phone_atomic (r : Record) (old new : String)
    (hmem : ∃ p ∈ r.phones, p.value = old)
    (hbad : phoneValid new = false) :
    r.edit_phone old new = (r, some .invalidFormat) := by
  simp [Record.edit_phone, editPhoneGo_invalid r.phones old new hmem hbad]

/-- C10 witness: editing "1234567890" to the malformed "12ab" fails with
`InvalidFormat` and leaves the phone list untouched. -/
theorem edit_phone_atomic_witness :
    Record.edit_phone ⟨⟨"C"⟩, [⟨"5555555555"⟩, ⟨"1234567890"⟩], none⟩
      "1234567890" "12ab" =
      (⟨⟨"C"⟩, [⟨"5555555555"⟩, ⟨"1234567890"⟩], none⟩,
        some .invalidFormat) :=
  edit_phone_atomic ⟨⟨"C"⟩, [⟨"5555555555"⟩, ⟨"1234567890"⟩], none⟩
    "1234567890" "12ab" (by decide) (by decide)

/-! ### C9: the birthday transition is one-way -/

/-- One step of any exposed record operation keeps a set birthday. -/
theorem applyRecOp_birthday (r : Record) (op : RecOp) (b : Birthday)
    (hb : r.birthday = some b) : (applyRecOp r op).birthday = some b := by
  cases op with
  | addPhoneOp s =>
    cases hp : Phone.make s with
    | ok p => simp [applyRecOp, Record.add_phone, hp, Except.map, hb]
    | error e => simp [applyRecOp, Record.add_phone, hp, Except.map, hb]
  | removePhoneOp s => simpa [applyRecOp, Record.remove_phone] using hb
  | editPhoneOp old new =>
    simpa [applyRecOp, Record.edit_phone] using hb
  | addBirthdayOp s =>
    cases hd : pyStrptimeDMY s with
    | none => simp [applyRecOp, Record.add_birthday, Birthday.make, hd,
        Except.map, hb]
    | some d => simp [applyRecOp, Record.add_birthday, Birthday.make, hd,
        Except.map, hb]
  | findPhoneOp s => simpa [applyRecOp] using hb
  | renderOp => simpa [applyRecOp] using hb

/-- C9: over every sequence of the exposed record operations, a set
birthday never becomes unset and never changes to a different date: the
only transition is unset → set, and no operation unsets or overwrites. -/
theorem birthday_one_way (ops : List RecOp) (r : Record) (b : Birthday)
    (hb : r.birthday = some b) :
    (ops.foldl applyRecOp r).birthday = some b := by
  induction ops generalizing r with
  | nil => simpa using hb
  | cons op rest ih =>
    simpa using ih (applyRecOp r op) (applyRecOp_birthday r op b hb)

/-- C9 witness: a record with birthday 15.03.1990 still has it after an
add-phone, a failed re-add of a birthday, an edit and a remove. -/
theorem birthday_one_way_witness :
    (([RecOp.addPhoneOp "1112223333", RecOp.addBirthdayOp "01.01.2000",
        RecOp.editPhoneOp "1112223333" "2223334444",
        RecOp.removePhoneOp "2223334444", RecOp.renderOp].foldl applyRecOp
        ⟨⟨"A"⟩, [], some ⟨⟨1990, 3, 15⟩⟩⟩).birthday =
      some ⟨⟨1990, 3, 15⟩⟩) :=
  birthday_one_way _ ⟨⟨"A"⟩, [], some ⟨⟨1990, 3, 15⟩⟩⟩ ⟨⟨1990, 3, 15⟩⟩ rfl

/-! ### C7: delete -/

/-- Assigning under key `k` rewrites the first entry holding `k`. -/
theorem upsert_cons_eq (k2 : String) (v2 : Record)
    (rest : List (String × Record)) (k : String) (v : Record)
    (h : k2 = k) : upsert ((k2, v2) :: rest) k v = (k, v) :: rest := by
  simp [upsert, h]

/-- Assigning under key `k` walks past entries holding other keys. -/
theorem upsert_cons_ne (k2 : String) (v2 : Record)
    (rest : List (String × Record)) (k : String) (v : Record)
    (h : ¬ k2 = k) :
    upsert ((k2, v2) :: rest) k v = (k2, v2) :: upsert rest k v := by
  simp [upsert, h]

/-- `find?` is unchanged by filtering with a predicate implied by the
search predicate. -/
theorem find?_filter_of_imp {α : Type} (p q : α → Bool) (l : List α)
    (h : ∀ x, p x = true → q x = true) :
    List.find? p (l.filter q) = List.find? p l := by
  induction l with
  | nil => rfl
  | cons x rest ih =>
    cases hq : q x with
    | true =>
      cases hp : p x with
      | true => simp [List.filter_cons, hq, List.find?_cons, hp]
      | false => simp [List.filter_cons, hq, List.find?_cons, hp, ih]
    | false =>
      have hp : p x = false := by
        cases hpx : p x with
        | true => rw [h x hpx] at hq; cases hq
        | false => rfl
      simp [List.filter_cons, hq, List.find?_cons, hp, ih]

/-- C7: `delete(name)` raises `NotFound` exactly when no entry for
`name` exists; on success the entry is gone — a later `find(name)`
reports absence — and every other name still maps to what it mapped to
before. -/
theorem delete_spec (book : AddressBook) (name : String) :
    (book.delete name = .error .notFound ↔ book.find name = none) ∧
    (∀ book2, book.delete name = .ok book2 →
      book2.find name = none ∧
      ∀ k, k ≠ name → book2.find k = book.find k) := by
  constructor
  · cases hf : book.find name with
    | none => simp [AddressBook.delete, hf]
    | some r => simp [AddressBook.delete, hf]
  · intro book2 h
    cases hf : book.find name with
    | none => simp [AddressBook.delete, hf] at h
    | some r =>
      simp [AddressBook.delete, hf] at h
      subst h
      constructor
      · simp only [AddressBook.find, removeKey]
        rw [List.find?_eq_none.mpr]
        · rfl
        · intro kv hkv
          have := List.of_mem_filter hkv
          simpa using this
      · intro k hk
        simp only [AddressBook.find, removeKey]
        rw [find?_filter_of_imp]
        intro kv hkv
        have : kv.1 = k := by simpa using hkv
        simp [this, hk]

/-- C7 witness: deleting "Bob" from an empty book fails with `NotFound`;
deleting "Bob" from the book that holds only "Bob" leaves a book in
which "Bob" is absent and "Al" is bound as before. -/
theorem delete_spec_witness :
    AddressBook.delete ⟨[]⟩ "Bob" = .error .notFound ∧
    AddressBook.find ⟨([] : List (String × Record))⟩ "Bob" = none ∧
    AddressBook.find ⟨([] : List (String × Record))⟩ "Al" =
      AddressBook.find ⟨[("Bob", ⟨⟨"Bob"⟩, [], none⟩)]⟩ "Al" := by
  have h1 := (delete_spec ⟨[]⟩ "Bob").1.mpr rfl
  have h2 := (delete_spec ⟨[("Bob", ⟨⟨"Bob"⟩, [], none⟩)]⟩ "Bob").2
    ⟨[]⟩ (by rfl)
  exact ⟨h1, h2.1, h2.2 "Al" (by decide)⟩

/-! ### C8: one record per name -/

/-- Every key of `upsert l k v` is `k` or a key of `l`. -/
theorem upsert_keys_subset (l : List (String × Record)) (k : String)
    (v : Record) (x : String) (hx : x ∈ (upsert l k v).map Prod.fst) :
    x = k ∨ x ∈ l.map Prod.fst := by
  induction l with
  | nil => simpa [upsert] using hx
  | cons kv rest ih =>
    obtain ⟨k2, v2⟩ := kv
    by_cases hk : k2 = k
    · rw [upsert_cons_eq k2 v2 rest k v hk] at hx
      simp only [List.map_cons] at hx ⊢
      rcases List.mem_cons.mp hx with h | h
      · exact .inl h
      · exact .inr (List.mem_cons.mpr (.inr h))
    · rw [upsert_cons_ne k2 v2 rest k v hk] at hx
      simp only [List.map_cons] at hx ⊢
      rcases List.mem_cons.mp hx with h | h
      · exact .inr (List.mem_cons.mpr (.inl h))
      · rcases ih h with h2 | h2
        · exact .inl h2
        · exact .inr (List.mem_cons.mpr (.inr h2))

/-- Dictionary assignment keeps the keys distinct. -/
theorem upsert_keys_nodup (l : List (String × Record)) (k : String)
    (v : Record) (h : (l.map Prod.fst).Nodup) :
    ((upsert l k v).map Prod.fst).Nodup := by
  induction l with
  | nil => simp [upsert]
  | cons kv rest ih =>
    obtain ⟨k2, v2⟩ := kv
    rw [List.map_cons, List.nodup_cons] at h
    by_cases hk : k2 = k
    · rw [upsert_cons_eq k2 v2 rest k v hk]
      rw [List.map_cons, List.nodup_cons]
      subst hk
      exact ⟨h.1, h.2⟩
    · rw [upsert_cons_ne k2 v2 rest k v hk]
      rw [List.map_cons, List.nodup_cons]
      refine ⟨fun hmem => ?_, ih h.2⟩
      rcases upsert_keys_subset rest k v k2 hmem with h2 | h2
      · exact hk h2
      · exact h.1 h2

/-- `find` right after `add_record` returns exactly the added record. -/
theorem find_add_record (book : AddressBook) (r : Record) :
    (book.add_record r).find r.name.value = some r := by
  show ((upsert book.data r.name.value r).find? fun kv =>
    kv.1 = r.name.value).map Prod.snd = some r
  induction book.data with
  | nil =>
    rw [show upsert [] r.name.value r = [(r.name.value, r)] from rfl]
    rw [List.find?_cons_of_pos _ (by simp)]
    rfl
  | cons kv rest ih =>
    obtain ⟨k2, v2⟩ := kv
    by_cases hk : k2 = r.name.value
    · rw [upsert_cons_eq k2 v2 rest r.name.value r hk]
      rw [List.find?_cons_of_pos _ (by simp)]
      rfl
    · rw [upsert_cons_ne k2 v2 rest r.name.value r hk]
      rw [List.find?_cons_of_neg _ (by simpa using hk)]
      exact ih

/-- C8: `add_record` inserts or overwrites under the record's name with
no duplicate-check error — `find` on that name afterwards returns
exactly the record just added, for any prior book — and every book
reachable from the empty one through the book operations keeps at most
one record per name (its key list stays duplicate-free). -/
theorem address_book_unique_keys :
    (∀ (book : AddressBook) (r : Record),
      (book.add_record r).find r.name.value = some r) ∧
    (∀ ops : List BookOp,
      (((ops.foldl applyBookOp ⟨[]⟩).data.map Prod.fst)).Nodup) := by
  constructor
  · exact find_add_record
  · have step : ∀ (book : AddressBook) (op : BookOp),
        ((book.data.map Prod.fst)).Nodup →
        (((applyBookOp book op).data.map Prod.fst)).Nodup := by
      intro book op h
      cases op with
      | addRecordOp r => exact upsert_keys_nodup book.data _ r h
      | deleteOp name =>
        cases hd : book.delete name with
        | error e => simpa [applyBookOp, hd] using h
        | ok book2 =>
          simp only [applyBookOp, hd]
          cases hf : book.find name with
          | none => simp [AddressBook.delete, hf] at hd
          | some r =>
            simp [AddressBook.delete, hf] at hd
            subst hd
            exact List.Nodup.sublist
              (List.Sublist.map Prod.fst (List.filter_sublist book.data)) h
    intro ops
    have gen : ∀ (book : AddressBook),
        ((book.data.map Prod.fst)).Nodup →
        ((((ops.foldl applyBookOp book).data.map Prod.fst))).Nodup := by
      induction ops with
      | nil => intro book h; simpa using h
      | cons op rest ih =>
        intro book h
        simpa using ih (applyBookOp book op) (step book op h)
    exact gen ⟨[]⟩ (by simp)

/-! ### C1: the 7-day birthday window -/

/-- When every stored birthday survives the year replacement, the scan
returns normally, and its output is the in-order `filterMap` of the
per-record window test. -/
theorem getUpcomingGo_ok (t : Date) (l : List (String × Record))
    (H : ∀ kr ∈ l, ∀ b, kr.2.birthday = some b →
      (replaceYear b.value t.year).isSome = true) :
    getUpcomingGo t l = .ok (l.filterMap (upcomingEntry t)) := by
  induction l with
  | nil => rfl
  | cons kr rest ih =>
    obtain ⟨k, r⟩ := kr
    have Hrest : ∀ kr ∈ rest, ∀ b, kr.2.birthday = some b →
        (replaceYear b.value t.year).isSome = true :=
      fun kr hkr => H kr (List.mem_cons.mpr (.inr hkr))
    cases hb : r.birthday with
    | none =>
      simp [getUpcomingGo, hb, List.filterMap_cons, upcomingEntry, ih Hrest]
    | some b =>
      have hrep : (replaceYear b.value t.year).isSome = true :=
        H (k, r) (List.mem_cons.mpr (.inl rfl)) b hb
      obtain ⟨bty, hbty⟩ := Option.isSome_iff_exists.mp hrep
      by_cases hw : 0 ≤ daysBetween bty t ∧ daysBetween bty t ≤ 7
      · simp [getUpcomingGo, hb, hbty, List.filterMap_cons, upcomingEntry,
          ih Hrest, hw, Except.map]
      · simp [getUpcomingGo, hb, hbty, List.filterMap_cons, upcomingEntry,
          ih Hrest, hw, Except.map]

/-- C1 (amended): provided every stored birthday still forms a valid
date once its year is replaced by today's year (e.g. no Feb 29 birthday
meeting a non-leap year), `get_upcoming_birthdays` returns normally and
its output contains exactly one `(name, weekday-date)` entry for each
record with a set birthday whose this-year date lies 0 to 7 whole days
from today, inclusive; a record fails the window test exactly as the
claim's 2024-06-01 examples describe.  (Without that proviso the call
raises instead of returning a list — see the counterexample.) -/
theorem get_upcoming_birthdays_spec (book : AddressBook) (t : Date)
    (H : ∀ kr ∈ book.data, ∀ b, kr.2.birthday = some b →
      (replaceYear b.value t.year).isSome = true) :
    book.get_upcoming_birthdays t =
      .ok (book.data.filterMap (upcomingEntry t)) ∧
    ∀ nm s, (nm, s) ∈ book.data.filterMap (upcomingEntry t) ↔
      ∃ kr ∈ book.data, ∃ b bty, kr.2.birthday = some b ∧
        replaceYear b.value t.year = some bty ∧
        0 ≤ daysBetween bty t ∧ daysBetween bty t ≤ 7 ∧
        nm = kr.2.name.value ∧ s = strftimeADMY bty := by
  refine ⟨getUpcomingGo_ok t book.data H, ?_⟩
  intro nm s
  rw [List.mem_filterMap]
  constructor
  · rintro ⟨kr, hkr, he⟩
    refine ⟨kr, hkr, ?_⟩
    cases hb : kr.2.birthday with
    | none => simp [upcomingEntry, hb] at he
    | some b =>
      cases hrep : replaceYear b.value t.year with
      | none => simp [upcomingEntry, hb, hrep] at he
      | some bty =>
        by_cases hw : 0 ≤ daysBetween bty t ∧ daysBetween bty t ≤ 7
        · simp [upcomingEntry, hb, hrep, hw] at he
          exact ⟨b, bty, rfl, hrep, hw.1, hw.2, he.1.symm, he.2.symm⟩
        · simp [upcomingEntry, hb, hrep, hw] at he
  · rintro ⟨kr, hkr, b, bty, hb, hrep, h0, h7, rfl, rfl⟩
    exact ⟨kr, hkr, by simp [upcomingEntry, hb, hrep, h0, h7]⟩

/-- C1 witness: run at 2024-06-01 on records with birthdays
1990-06-05, 1990-06-10 and 1990-05-30, only the first qualifies
(4 days ahead; the others are 9 days ahead and 2 days past). -/
theorem get_upcoming_birthdays_spec_witness :
    AddressBook.get_upcoming_birthdays
      ⟨[("Al", ⟨⟨"Al"⟩, [], some ⟨⟨1990, 6, 5⟩⟩⟩),
        ("Bo", ⟨⟨"Bo"⟩, [], some ⟨⟨1990, 6, 10⟩⟩⟩),
        ("Cy", ⟨⟨"Cy"⟩, [], some ⟨⟨1990, 5, 30⟩⟩⟩)]⟩ ⟨2024, 6, 1⟩ =
      .ok [("Al", "Wednesday, 05.06.2024")] := by
  have h := (get_upcoming_birthdays_spec
    ⟨[("Al", ⟨⟨"Al"⟩, [], some ⟨⟨1990, 6, 5⟩⟩⟩),
      ("Bo", ⟨⟨"Bo"⟩, [], some ⟨⟨1990, 6, 10⟩⟩⟩),
      ("Cy", ⟨⟨"Cy"⟩, [], some ⟨⟨1990, 5, 30⟩⟩⟩)]⟩ ⟨2024, 6, 1⟩
    (by
      intro kr hkr b hb
      simp only [List.mem_cons, List.not_mem_nil, or_false] at hkr
      rcases hkr with rfl | rfl | rfl <;> (cases hb; rfl))).1
  exact h.trans (congrArg Except.ok (by decide))

/-- C1 counterexample: a book holding Al (birthday 1990-06-05, which at
today = 2023-06-01 lies 4 days ahead and so must be included per the
claim) and Le (birthday 1992-02-29): `date.replace(year=2023)` raises
`ValueError`, the whole call fails, and no list containing Al's entry is
returned — refuting the claim for this book and today. -/
theorem get_upcoming_birthdays_leapday_cex :
    AddressBook.get_upcoming_birthdays
      ⟨[("Al", ⟨⟨"Al"⟩, [], some ⟨⟨1990, 6, 5⟩⟩⟩),
        ("Le", ⟨⟨"Le"⟩, [], some ⟨⟨1992, 2, 29⟩⟩⟩)]⟩ ⟨2023, 6, 1⟩ =
      .error .invalidFormat ∧
    replaceYear ⟨1990, 6, 5⟩ 2023 = some ⟨2023, 6, 5⟩ ∧
    0 ≤ daysBetween ⟨2023, 6, 5⟩ ⟨2023, 6, 1⟩ ∧
    daysBetween ⟨2023, 6, 5⟩ ⟨2023, 6, 1⟩ ≤ 7 := by
  refine ⟨rfl, rfl, by decide, by decide⟩

/-! ### C5: Birthday parsing and rendering -/

theorem natDigitsAux_of_lt (fuel n : Nat) (h : n < 10) :
    natDigitsAux fuel n = [dchar n] := by
  cases fuel <;> simp [natDigitsAux, h]

theorem natDigitsAux_ge (f n : Nat) (h : ¬ n < 10) (hf : 1 ≤ f) :
    natDigitsAux f n = natDigitsAux (f - 1) (n / 10) ++ [dchar n] := by
  obtain ⟨g, rfl⟩ : ∃ g, f = g + 1 := ⟨f - 1, by omega⟩
  simp [natDigitsAux, h]

/-- A four-digit year renders as exactly its four digit characters. -/
theorem natDigits_four (y : Nat) (h1 : 1000 ≤ y) (h2 : y ≤ 9999) :
    natDigits y =
      [dchar (y / 1000), dchar (y / 100), dchar (y / 10), dchar y] := by
  have s1 : natDigitsAux y y =
      natDigitsAux (y - 1) (y / 10) ++ [dchar y] :=
    natDigitsAux_ge y y (by omega) (by omega)
  have s2 : natDigitsAux (y - 1) (y / 10) =
      natDigitsAux (y - 1 - 1) (y / 10 / 10) ++ [dchar (y / 10)] :=
    natDigitsAux_ge (y - 1) (y / 10) (by omega) (by omega)
  have s3 : natDigitsAux (y - 1 - 1) (y / 10 / 10) =
      natDigitsAux (y - 1 - 1 - 1) (y / 10 / 10 / 10) ++
        [dchar (y / 10 / 10)] :=
    natDigitsAux_ge (y - 1 - 1) (y / 10 / 10) (by omega) (by omega)
  have s4 : natDigitsAux (y - 1 - 1 - 1) (y / 10 / 10 / 10) =
      [dchar (y / 10 / 10 / 10)] :=
    natDigitsAux_of_lt _ _ (by omega)
  have e2 : y / 10 / 10 = y / 100 := by
    rw [Nat.div_div_eq_div_mul]
  have e3 : y / 10 / 10 / 10 = y / 1000 := by
    rw [Nat.div_div_eq_div_mul, Nat.div_div_eq_div_mul]
  rw [natDigits, s1, s2, s3, s4, e3, e2]
  simp

/-- A dot-free chunk splits into itself. -/
theorem splitOnDot_no_dot (l : List Char) (h : ∀ c ∈ l, c ≠ '.') :
    splitOnDot l = [l] := by
  induction l with
  | nil => rfl
  | cons c rest ih =>
    have hc : c ≠ '.' := h c (List.mem_cons.mpr (.inl rfl))
    have hrest := ih fun x hx => h x (List.mem_cons.mpr (.inr hx))
    simp [splitOnDot, hc, hrest]

/-- Splitting a dot-free chunk followed by a dot peels off that chunk. -/
theorem splitOnDot_append (a l : List Char) (ha : ∀ c ∈ a, c ≠ '.') :
    splitOnDot (a ++ '.' :: l) = a :: splitOnDot l := by
  induction a with
  | nil => simp [splitOnDot]
  | cons c rest ih =>
    have hc : c ≠ '.' := ha c (List.mem_cons.mpr (.inl rfl))
    have hrest := ih fun x hx => ha x (List.mem_cons.mpr (.inr hx))
    rw [List.cons_append]
    simp [splitOnDot, hc, hrest]

/-- A digit character written by `dchar` carries its decimal value. -/
theorem ndVal_dchar (k : Nat) : ndVal (dchar k) = k % 10 := by
  have h : k % 10 < 10 := Nat.mod_lt _ (by omega)
  unfold dchar
  set j := k % 10 with hj
  interval_cases j <;> decide

/-- A digit character written by `dchar` is a Unicode decimal digit. -/
theorem isNdDigit_dchar (k : Nat) : isNdDigit (dchar k) = true := by
  have h : k % 10 < 10 := Nat.mod_lt _ (by omega)
  unfold dchar
  set j := k % 10 with hj
  interval_cases j <;> decide

/-- Every month has at most 31 days. -/
theorem daysInMonth_le_31 (y m : Nat) : daysInMonth y m ≤ 31 := by
  unfold daysInMonth
  split
  · split <;> omega
  · split <;> omega

/-- The zero-padded day chunk parses back to the day. -/
theorem dayFieldVal_pad (d : Nat) (h1 : 1 ≤ d) (h2 : d ≤ 31) :
    dayFieldVal [dchar (d / 10), dchar d] = some d := by
  interval_cases d <;> decide

/-- The zero-padded month chunk parses back to the month. -/
theorem monthFieldVal_pad (m : Nat) (h1 : 1 ≤ m) (h2 : m ≤ 12) :
    monthFieldVal [dchar (m / 10), dchar m] = some m := by
  interval_cases m <;> decide

/-- The four-digit year chunk parses back to the year. -/
theorem yearFieldVal_digits (y : Nat) (h2 : y ≤ 9999) :
    yearFieldVal [dchar (y / 1000), dchar (y / 100), dchar (y / 10),
      dchar y] = some y := by
  simp [yearFieldVal, isNdDigit_dchar, ndVal_dchar]
  omega

/-- The character data of the canonical rendering. -/
theorem strftimeDMY_data (dt : Date) :
    (strftimeDMY dt).data =
      [dchar (dt.day / 10), dchar dt.day] ++ '.' ::
        ([dchar (dt.month / 10), dchar dt.month] ++ '.' ::
          natDigits dt.year) := by
  simp [strftimeDMY, pad2, natStr, String.data_append]

/-- `splitOnDot` never returns an empty chunk list. -/
theorem splitOnDot_ne_nil (l : List Char) : splitOnDot l ≠ [] := by
  cases l with
  | nil => simp [splitOnDot]
  | cons c rest =>
    simp only [splitOnDot]
    split
    · simp
    · split <;> simp

/-- Joining the chunks of `splitOnDot` restores the original list. -/
theorem splitOnDot_join (l : List Char) : joinDots (splitOnDot l) = l := by
  induction l with
  | nil => rfl
  | cons c rest ih =>
    obtain ⟨g, gs, hgs⟩ : ∃ g gs, splitOnDot rest = g :: gs := by
      cases h : splitOnDot rest with
      | nil => exact absurd h (splitOnDot_ne_nil rest)
      | cons g gs => exact ⟨g, gs, rfl⟩
    by_cases hc : c = '.'
    · subst hc
      rw [show splitOnDot ('.' :: rest) = [] :: splitOnDot rest by
        simp [splitOnDot]]
      rw [hgs]
      show '.' :: joinDots (g :: gs) = '.' :: rest
      rw [← hgs, ih]
    · rw [show splitOnDot (c :: rest) = (c :: g) :: gs by
        simp [splitOnDot, hc, hgs]]
      cases gs with
      | nil =>
        have hg : joinDots [g] = rest := by rw [← hgs]; exact ih
        simp only [joinDots] at hg
        show c :: g = c :: rest
        rw [hg]
      | cons g2 gs2 =>
        show c :: (g ++ '.' :: joinDots (g2 :: gs2)) = c :: rest
        have hg : joinDots (g :: g2 :: gs2) = rest := by rw [← hgs]; exact ih
        rw [show g ++ '.' :: joinDots (g2 :: gs2) = joinDots (g :: g2 :: gs2)
          from rfl, hg]

/-- A chunk matched by the `%d` pattern holds no dot. -/
theorem dayFieldVal_no_dot (l : List Char) (v : Nat)
    (h : dayFieldVal l = some v) : ∀ c ∈ l, c ≠ '.' := by
  rcases l with _ | ⟨c1, _ | ⟨c2, _ | ⟨c3, rest⟩⟩⟩
  · simp [dayFieldVal] at h
  · simp only [dayFieldVal] at h
    split at h
    · rename_i hcond
      intro c hc he
      simp only [List.mem_singleton] at hc
      subst hc
      subst he
      exact absurd hcond (by decide)
    · cases h
  · simp only [dayFieldVal] at h
    split at h
    · rename_i hcond
      intro c hc he
      simp only [List.mem_cons, List.not_mem_nil, or_false] at hc
      rcases hc with rfl | rfl
      · subst he
        rcases hcond with ⟨h3, _⟩ | ⟨h12, _⟩ | ⟨h0, _⟩
        · exact absurd h3 (by decide)
        · rcases h12 with h1 | h1 <;> exact absurd h1 (by decide)
        · exact absurd h0 (by decide)
      · subst he
        rcases hcond with ⟨_, h01⟩ | ⟨_, hnd⟩ | ⟨_, h19⟩
        · rcases h01 with h1 | h1 <;> exact absurd h1 (by decide)
        · exact absurd hnd (by decide)
        · exact absurd h19 (by decide)
    · cases h
  · simp [dayFieldVal] at h

/-- A chunk matched by the `%m` pattern holds no dot. -/
theorem monthFieldVal_no_dot (l : List Char) (v : Nat)
    (h : monthFieldVal l = some v) : ∀ c ∈ l, c ≠ '.' := by
  rcases l with _ | ⟨c1, _ | ⟨c2, _ | ⟨c3, rest⟩⟩⟩
  · simp [monthFieldVal] at h
  · simp only [monthFieldVal] at h
    split at h
    · rename_i hcond
      intro c hc he
      simp only [List.mem_singleton] at hc
      subst hc
      subst he
      exact absurd hcond (by decide)
    · cases h
  · simp only [monthFieldVal] at h
    split at h
    · rename_i hcond
      intro c hc he
      simp only [List.mem_cons, List.not_mem_nil, or_false] at hc
      rcases hc with rfl | rfl
      · subst he
        rcases hcond with ⟨h1, _⟩ | ⟨h0, _⟩
        · exact absurd h1 (by decide)
        · exact absurd h0 (by decide)
      · subst he
        rcases hcond with ⟨_, h012⟩ | ⟨_, h19⟩
        · rcases h012 with h1 | h1 | h1 <;> exact absurd h1 (by decide)
        · exact absurd h19 (by decide)
    · cases h
  · simp [monthFieldVal] at h

/-- A chunk matched by the `%Y` pattern holds no dot. -/
theorem yearFieldVal_no_dot (l : List Char) (v : Nat)
    (h : yearFieldVal l = some v) : ∀ c ∈ l, c ≠ '.' := by
  rcases l with _ | ⟨a, _ | ⟨b, _ | ⟨e, _ | ⟨f, _ | ⟨g, rest⟩⟩⟩⟩⟩
  · simp [yearFieldVal] at h
  · simp [yearFieldVal] at h
  · simp [yearFieldVal] at h
  · simp [yearFieldVal] at h
  · simp only [yearFieldVal] at h
    split at h
    · rename_i hcond
      intro c hc he
      simp only [List.mem_cons, List.not_mem_nil, or_false] at hc
      rcases hc with rfl | rfl | rfl | rfl <;> subst he
      · exact absurd hcond.1 (by decide)
      · exact absurd hcond.2.1 (by decide)
      · exact absurd hcond.2.2.1 (by decide)
      · exact absurd hcond.2.2.2 (by decide)
    · cases h
  · simp [yearFieldVal] at h

/-- A number below `10 ^ k` prints with at most `k` digits. -/
theorem natDigitsAux_length (fuel : Nat) :
    ∀ n k, 1 ≤ k → n < 10 ^ k → (natDigitsAux fuel n).length ≤ k := by
  induction fuel with
  | zero =>
    intro n k hk _
    simpa [natDigitsAux] using hk
  | succ f ih =>
    intro n k hk hn
    by_cases h10 : n < 10
    · simpa [natDigitsAux, h10] using hk
    · have hk2 : 2 ≤ k := by
        rcases Nat.lt_or_ge k 2 with hlt | hge
        · interval_cases k
          norm_num at hn
          omega
        · exact hge
      have hpow : 10 ^ k = 10 ^ (k - 1) * 10 := by
        conv_lhs => rw [show k = (k - 1) + 1 by omega]
        rw [pow_succ]
      have hn2 : n / 10 < 10 ^ (k - 1) := by
        rw [Nat.div_lt_iff_lt_mul (by omega : 0 < 10)]
        omega
      have hlen := ih (n / 10) (k - 1) (by omega) hn2
      simp only [natDigitsAux, h10, if_false, List.length_append]
      simp
      omega

/-- Rendering reproduces the zero-padded canonical string exactly when
the year is at least 1000: below that, glibc `%Y` prints fewer than
four digits. -/
theorem strftimeDMY_eq_canon (y m d : Nat) (h2 : y ≤ 9999) :
    strftimeDMY ⟨y, m, d⟩ = canonDMY y m d ↔ 1000 ≤ y := by
  constructor
  · intro he
    by_contra hlt
    push_neg at hlt
    have h3 : (natDigits y).length ≤ 3 := by
      have := natDigitsAux_length y y 3 (by omega) (by norm_num; omega)
      simpa [natDigits] using this
    have hlen := congrArg (fun s : String => s.data.length) he
    simp only [strftimeDMY_data, canonDMY] at hlen
    simp [List.length_append] at hlen
    omega
  · intro hy
    apply String.ext
    rw [strftimeDMY_data, natDigits_four y hy h2]
    rfl

/-- The canonical string of any real calendar date parses back to
exactly that date, whatever the year. -/
theorem birthday_parse_canon (y m d : Nat) (hv : validDate y m d = true) :
    Birthday.make (canonDMY y m d) = .ok ⟨⟨y, m, d⟩⟩ := by
  have hv2 : ((((1 ≤ y ∧ y ≤ 9999) ∧ 1 ≤ m) ∧ m ≤ 12) ∧ 1 ≤ d) ∧
      d ≤ daysInMonth y m := by
    simpa [validDate, Bool.and_eq_true, decide_eq_true_eq] using hv
  obtain ⟨⟨⟨⟨⟨hy1, hy2⟩, hm1⟩, hm2⟩, hd1⟩, hdm⟩ := hv2
  have hd31 : d ≤ 31 := le_trans hdm (daysInMonth_le_31 y m)
  have hsplit : splitOnDot (canonDMY y m d).data =
      [[dchar (d / 10), dchar d], [dchar (m / 10), dchar m],
        [dchar (y / 1000), dchar (y / 100), dchar (y / 10), dchar y]] := by
    show splitOnDot ([dchar (d / 10), dchar d] ++ '.' :: _) = _
    rw [splitOnDot_append _ _ (by
      intro c hc
      simp at hc
      rcases hc with rfl | rfl <;> exact dchar_ne_dot _)]
    rw [splitOnDot_append _ _ (by
      intro c hc
      simp at hc
      rcases hc with rfl | rfl <;> exact dchar_ne_dot _)]
    rw [splitOnDot_no_dot _ (by
      intro c hc
      simp at hc
      rcases hc with rfl | rfl | rfl | rfl <;> exact dchar_ne_dot _)]
  simp only [Birthday.make, pyStrptimeDMY, hsplit,
    dayFieldVal_pad d hd1 hd31,
    monthFieldVal_pad m hm1 hm2,
    yearFieldVal_digits y hy2, hv, if_true]

/-- `Birthday` accepts a string exactly when it is three dot-separated
chunks matched by the `%d`, `%m` and `%Y` patterns whose values form a
real calendar date. -/
theorem birthday_make_ok_iff (s : String) (dt : Date) :
    Birthday.make s = .ok ⟨dt⟩ ↔
      ∃ df mf yf, s.data = df ++ '.' :: (mf ++ '.' :: yf) ∧
        dayFieldVal df = some dt.day ∧ monthFieldVal mf = some dt.month ∧
        yearFieldVal yf = some dt.year ∧
        validDate dt.year dt.month dt.day = true := by
  constructor
  · intro h
    cases hsp : splitOnDot s.data with
    | nil => exact absurd hsp (splitOnDot_ne_nil _)
    | cons df t1 =>
      cases t1 with
      | nil => simp [Birthday.make, pyStrptimeDMY, hsp] at h
      | cons mf t2 =>
        cases t2 with
        | nil => simp [Birthday.make, pyStrptimeDMY, hsp] at h
        | cons yf t3 =>
          cases t3 with
          | cons g4 t4 => simp [Birthday.make, pyStrptimeDMY, hsp] at h
          | nil =>
            have hshape : s.data = df ++ '.' :: (mf ++ '.' :: yf) := by
              have hj := splitOnDot_join s.data
              rw [hsp] at hj
              rw [← hj]
              rfl
            cases hd : dayFieldVal df with
            | none => simp [Birthday.make, pyStrptimeDMY, hsp, hd] at h
            | some dv =>
              cases hm : monthFieldVal mf with
              | none => simp [Birthday.make, pyStrptimeDMY, hsp, hd, hm] at h
              | some mv =>
                cases hy : yearFieldVal yf with
                | none =>
                  simp [Birthday.make, pyStrptimeDMY, hsp, hd, hm, hy] at h
                | some yv =>
                  by_cases hvd : validDate yv mv dv = true
                  · simp only [Birthday.make, pyStrptimeDMY, hsp, hd, hm, hy,
                      hvd, if_true] at h
                    have hdt : dt = ⟨yv, mv, dv⟩ := by
                      cases h
                      rfl
                    subst hdt
                    exact ⟨df, mf, yf, hshape, hd, hm, hy, hvd⟩
                  · simp [Birthday.make, pyStrptimeDMY, hsp, hd, hm, hy,
                      hvd] at h
  · rintro ⟨df, mf, yf, hshape, hd, hm, hy, hvd⟩
    have hsp : splitOnDot s.data = [df, mf, yf] := by
      rw [hshape,
        splitOnDot_append _ _ (dayFieldVal_no_dot df _ hd),
        splitOnDot_append _ _ (monthFieldVal_no_dot mf _ hm),
        splitOnDot_no_dot _ (yearFieldVal_no_dot yf _ hy)]
    simp [Birthday.make, pyStrptimeDMY, hsp, hd, hm, hy, hvd]

/-- The parse either yields a date or the `InvalidFormat` error — the
one `ValueError` the constructor raises. -/
theorem birthday_make_total (s : String) :
    (∃ b, Birthday.make s = .ok b) ∨
      Birthday.make s = .error .invalidFormat := by
  cases h : pyStrptimeDMY s with
  | some d => exact .inl ⟨⟨d⟩, by simp [Birthday.make, h]⟩
  | none => exact .inr (by simp [Birthday.make, h])

/-- C5 (amended): `Birthday` construction succeeds exactly on strings of
the form day.month.year where the day chunk matches strptime's `%d`
(one ASCII digit 1–9, or two characters: `3` then ASCII `0`/`1`, or
ASCII `1`/`2` then any Unicode decimal digit, or `0` then ASCII 1–9),
the month chunk matches `%m` (ASCII only: 1–9, 01–09 or 10–12), the
year chunk is exactly four Unicode decimal digits, and the values form
a real calendar date — so unpadded one-digit days and months are
accepted, not rejected; every other string fails with `InvalidFormat`.
The zero-padded canonical `DD.MM.YYYY` string of every real date parses
back to exactly that date, and rendering that date reproduces the
canonical string exactly when the year is at least 1000 (below that,
`%Y` drops the zero padding and the round-trip fails). -/
theorem birthday_make_spec :
    (∀ (s : String) (dt : Date),
      Birthday.make s = .ok ⟨dt⟩ ↔
        ∃ df mf yf, s.data = df ++ '.' :: (mf ++ '.' :: yf) ∧
          dayFieldVal df = some dt.day ∧
          monthFieldVal mf = some dt.month ∧
          yearFieldVal yf = some dt.year ∧
          validDate dt.year dt.month dt.day = true) ∧
    (∀ s : String, (∃ b, Birthday.make s = .ok b) ∨
      Birthday.make s = .error .invalidFormat) ∧
    (∀ y m d : Nat, validDate y m d = true →
      Birthday.make (canonDMY y m d) = .ok ⟨⟨y, m, d⟩⟩) ∧
    (∀ y m d : Nat, validDate y m d = true →
      (strftimeDMY ⟨y, m, d⟩ = canonDMY y m d ↔ 1000 ≤ y)) := by
  refine ⟨birthday_make_ok_iff, birthday_make_total, birthday_parse_canon,
    fun y m d hv => strftimeDMY_eq_canon y m d ?_⟩
  have hv2 : ((((1 ≤ y ∧ y ≤ 9999) ∧ 1 ≤ m) ∧ m ≤ 12) ∧ 1 ≤ d) ∧
      d ≤ daysInMonth y m := by
    simpa [validDate, Bool.and_eq_true, decide_eq_true_eq] using hv
  exact hv2.1.1.1.1.2

/-- C5 witness: the canonical string for 15.03.1990 parses back to that
date and the date re-renders to the same string (a year above 1000, so
the round-trip closes). -/
theorem birthday_make_spec_witness :
    Birthday.make "15.03.1990" = .ok ⟨⟨1990, 3, 15⟩⟩ ∧
    strftimeDMY ⟨1990, 3, 15⟩ = "15.03.1990" := by
  have h3 := birthday_make_spec.2.2.1 1990 3 15 (by decide)
  have h4 := (birthday_make_spec.2.2.2 1990 3 15 (by decide)).mpr (by omega)
  have hc : canonDMY 1990 3 15 = "15.03.1990" := by decide
  exact ⟨by rw [← hc]; exact h3, by rw [h4, hc]⟩

/-- C5 counterexample: `strptime`'s `%d` and `%m` also match single
digits, so "5.3.1990" — not of two-digit day/month form — is accepted
instead of rejected; and the canonical four-digit-year string
"01.01.0005" parses but re-renders as "01.01.5" (glibc `%Y` does not
zero-pad), so the round-trip fails for it. -/
theorem birthday_format_cex :
    Birthday.make "5.3.1990" = .ok ⟨⟨1990, 3, 5⟩⟩ ∧
    Birthday.make "01.01.0005" = .ok ⟨⟨5, 1, 1⟩⟩ ∧
    strftimeDMY ⟨5, 1, 1⟩ = "01.01.5" ∧
    "01.01.5" ≠ "01.01.0005" := by
  refine ⟨by rfl, by rfl, by decide, by decide⟩
